import Mathlib

/-!
Verification development for the PEX competitor research agent
(`src/main.py`).  The Python program is shallowly embedded: instants are
integers (seconds), the timestamp file, fetched pages and the classifier
response are explicit inputs, and fallible steps return `Option`.
-/

namespace CompetitorNews

/-- Number of seconds in one day; `timedelta(days=n)` is `n * secondsPerDay`. -/
def secondsPerDay : Int := 86400

/--
Embedding of `CompetitorAgent.get_last_run_timestamp` (main.py:57-82).
`file` describes the timestamp store: `none` means `last_run_timestamp.txt`
does not exist; `some none` means the file exists but reading it or
`datetime.fromisoformat` fails (the `except` branch); `some (some t)` means
it holds a timestamp parsing to instant `t`.
-/
def get_last_run_timestamp (now : Int) (file : Option (Option Int)) : Int :=
  match file with
  | some (some t) =>
      if t < now - 30 * secondsPerDay then now - 30 * secondsPerDay else t
  | some none => now - 7 * secondsPerDay
  | none => now - 7 * secondsPerDay

/--
Raw candidate dictionary built by `scrape_website_news` (main.py:153-160)
and consumed by `analyze_with_openai`.
-/
structure RawCandidate where
  company : String
  title : String
  date : String
  url : String
  content : String
  source : String
deriving DecidableEq

/--
Parsed JSON object returned by the classifier (main.py:229).  The fields
read with `result.get(...)` are optional; the fields read by direct
indexing are required in a well-formed response (a response missing them
raises and is dropped, which the `Option ClassifierResult` argument of
`analyze_with_openai` covers).
-/
structure ClassifierResult where
  importance_score : Option ℚ
  category : String
  summary : String
  implications : String
  should_include : Option Bool
deriving DecidableEq

/-- Accepted announcement record, the `Announcement` dataclass (main.py:22-34). -/
structure Announcement where
  company : String
  title : String
  date : String
  url : String
  content : String
  source : String
  importance_score : ℚ
  category : String
  summary : String
  implications : String
deriving DecidableEq

/--
Embedding of `CompetitorAgent.analyze_with_openai` (main.py:181-250).
`result` is `none` when the API call fails or the response is not valid
JSON (the `except` branch returns `None`).  The guard is
`result.get('should_include', False) and result.get('importance_score', 0) > 0.3`;
on success the announcement copies the candidate's fields and the
classifier's score, category, summary and implications.  Scores are
modelled as rationals.
-/
def analyze_with_openai (raw : RawCandidate) (result : Option ClassifierResult) :
    Option Announcement :=
  match result with
  | none => none
  | some r =>
      if r.should_include.getD false = true ∧ (3 : ℚ)/10 < r.importance_score.getD 0 then
        some { company := raw.company, title := raw.title, date := raw.date,
               url := raw.url, content := raw.content, source := raw.source,
               importance_score := r.importance_score.getD 0,
               category := r.category, summary := r.summary,
               implications := r.implications }
      else none

/--
C3: a stored window timestamp older than 30 days before now is clamped to
exactly `now - 30 days`; a stored timestamp at or within the 30-day bound
is returned unchanged.
-/
theorem window_clamped_to_thirty_days (now t : Int) :
    (t < now - 30 * secondsPerDay →
      get_last_run_timestamp now (some (some t)) = now - 30 * secondsPerDay)
    ∧ (now - 30 * secondsPerDay ≤ t →
      get_last_run_timestamp now (some (some t)) = t) := by
  constructor
  · intro h
    simp [get_last_run_timestamp, h]
  · intro h
    simp [get_last_run_timestamp, not_lt.mpr h]

/-- Witness for C3 at concrete instants. -/
theorem window_clamped_to_thirty_days_witness :
    get_last_run_timestamp 10000000 (some (some (-2678400))) = 10000000 - 30 * secondsPerDay
    ∧ get_last_run_timestamp 10000000 (some (some 9000000)) = 9000000 := by
  exact ⟨(window_clamped_to_thirty_days 10000000 (-2678400)).1 (by decide),
         (window_clamped_to_thirty_days 10000000 9000000).2 (by decide)⟩

/--
C4: with no stored timestamp file, and likewise when the stored value is
malformed or unreadable, `get_last_run_timestamp` returns `now - 7 days`
(it never raises: both failure shapes take the soft-fallback branch).
-/
theorem window_default_seven_days (now : Int) :
    get_last_run_timestamp now none = now - 7 * secondsPerDay
    ∧ get_last_run_timestamp now (some none) = now - 7 * secondsPerDay :=
  ⟨rfl, rfl⟩

/--
C1: an `Announcement` is constructed from a classifier response iff
`should_include` is `true` and `importance_score` is strictly greater
than 0.3; a response with score exactly 0.3, or with `should_include`
false or absent, yields no announcement (the candidate is dropped, not an
error).
-/
theorem analyze_classification_guard (raw : RawCandidate) (r : ClassifierResult) :
    ((analyze_with_openai raw (some r)).isSome = true ↔
      (r.should_include = some true ∧ (3 : ℚ)/10 < r.importance_score.getD 0))
    ∧ (r.importance_score = some ((3 : ℚ)/10) →
        analyze_with_openai raw (some r) = none)
    ∧ (r.should_include ≠ some true →
        analyze_with_openai raw (some r) = none) := by
  have hinc : (r.should_include.getD false = true) ↔ r.should_include = some true := by
    cases r.should_include with
    | none => simp
    | some b => cases b <;> simp
  have key : (analyze_with_openai raw (some r)).isSome = true ↔
      (r.should_include.getD false = true ∧ (3 : ℚ)/10 < r.importance_score.getD 0) := by
    by_cases h : r.should_include.getD false = true ∧ (3 : ℚ)/10 < r.importance_score.getD 0
    · simp [analyze_with_openai, h]
    · simp [analyze_with_openai, if_neg h, h]
  refine ⟨?_, ?_, ?_⟩
  · rw [key, and_congr_left fun _ => hinc]
  · intro h
    have hB : ¬((3 : ℚ)/10 < r.importance_score.getD 0) := by
      rw [h, Option.getD_some]
      exact lt_irrefl _
    simp [analyze_with_openai, hB]
  · intro h
    have hA : ¬(r.should_include.getD false = true) := fun hh => h (hinc.mp hh)
    simp [analyze_with_openai, hA]

/-- Sample raw candidate used by concrete witnesses. -/
def rawSample : RawCandidate :=
  { company := "Uponor", title := "Uponor Launches New PEX-A Fitting Line",
    date := "2024-01-02", url := "https://www.uponor.com/news/1",
    content := "strategic expansion", source := "website" }

/-- Classifier response accepting the sample candidate. -/
def resAccept : ClassifierResult :=
  { importance_score := some ((8 : ℚ)/10), category := "Product Launch",
    summary := "s", implications := "i", should_include := some true }

/-- Classifier response scoring exactly 0.3. -/
def resBoundary : ClassifierResult :=
  { importance_score := some ((3 : ℚ)/10), category := "Other",
    summary := "s", implications := "i", should_include := some true }

/-- Witness for C1: a score of 0.8 with inclusion yields an announcement, a score of exactly 0.3 does not. -/
theorem analyze_classification_guard_witness :
    (analyze_with_openai rawSample (some resAccept)).isSome = true
    ∧ analyze_with_openai rawSample (some resBoundary) = none := by
  exact ⟨(analyze_classification_guard rawSample resAccept).1.mpr
           ⟨rfl, by norm_num [resAccept]⟩,
         (analyze_classification_guard rawSample resBoundary).2.1 rfl⟩

/--
One matched article block inside a fetched page (main.py:121-160).
`title` is the text of the first heading-like or link element (`none` when
no such element exists and the block is skipped); `href` is the link
element's `href` attribute when present; `dateVal` is the parsed instant
of the date element (`none` when no date element exists or ISO parsing
fails, in which case the code defaults to the current instant); `text` is
the block's full text.
-/
structure Article where
  title : Option String
  href : Option String
  dateVal : Option Int
  text : String
deriving DecidableEq

/-- Resolved publication instant of a block: the parsed date, else `now` (main.py:141-149). -/
def Article.resolvedTime (a : Article) (now : Int) : Int :=
  a.dateVal.getD now

/-- Opaque rendering of an instant, standing for `datetime.isoformat` (main.py:156). -/
def isoFormat (t : Int) : String :=
  toString t

/--
Per-block processing of `scrape_website_news` (main.py:121-164): skip the
block when it has no title element; resolve the link against the base URL
when site-relative, defaulting to the news page URL; keep the candidate
only when its resolved instant is at or after `since`.
-/
def processArticle (baseUrl newsUrl company : String) (now since : Int)
    (a : Article) : Option RawCandidate :=
  match a.title with
  | none => none
  | some title =>
      let articleUrl :=
        match a.href with
        | some href => if href.startsWith "/" then baseUrl ++ href else href
        | none => newsUrl
      let articleDate := a.resolvedTime now
      if since ≤ articleDate then
        some { company := company, title := title, date := isoFormat articleDate,
               url := articleUrl, content := a.text.take 1000, source := "website" }
      else none

/--
One successfully fetched (status 200) page: the article blocks matched by
each CSS selector of `article_selectors`, in selector order (main.py:113-119).
-/
structure Page where
  selectorBlocks : List (List Article)
deriving DecidableEq

/--
Selector loop of main.py:118-167: selectors are tried in order and the
loop breaks at the first selector that matches at least one block, even
when those blocks later yield no candidates.
-/
def firstMatches : List (List Article) → List Article
  | [] => []
  | b :: bs => if b.isEmpty then firstMatches bs else b

/-- Candidates extracted from one fetched page (main.py:109-167). -/
def extractPage (baseUrl newsUrl company : String) (now since : Int)
    (pg : Page) : List RawCandidate :=
  (firstMatches pg.selectorBlocks).filterMap
    (processArticle baseUrl newsUrl company now since)

/-- Fixed news-section path suffixes, in trial order (main.py:102). -/
def news_paths : List String :=
  ["/news", "/press", "/press-releases", "/media", "/newsroom", "/media-center"]

/--
Candidates a single path contributes.  `fetch` models `requests.get`:
`none` covers both a transport error (`RequestException`) and a non-200
status; `some pg` is a status-200 response parsing to `pg` (main.py:104-110).
-/
def pathYield (fetch : String → Option Page) (url company : String)
    (now since : Int) (p : String) : List RawCandidate :=
  match fetch (url ++ p) with
  | none => []
  | some pg => extractPage url (url ++ p) company now since pg

/--
Path loop of main.py:104-174.  Returns the accumulated candidates and the
list of paths actually fetched.  The loop moves to the next path whenever
the accumulated `announcements` list is still empty (main.py:169-170),
and stops as soon as it is non-empty.
-/
def scrapeGo (fetch : String → Option Page) (url company : String)
    (now since : Int) : List String → List RawCandidate × List String
  | [] => ([], [])
  | p :: ps =>
      if (pathYield fetch url company now since p).isEmpty then
        ((scrapeGo fetch url company now since ps).1,
         p :: (scrapeGo fetch url company now since ps).2)
      else (pathYield fetch url company now since p, [p])

/-- Embedding of `CompetitorAgent.scrape_website_news` (main.py:92-179). -/
def scrape_website_news (fetch : String → Option Page) (url company : String)
    (now since : Int) : List RawCandidate × List String :=
  scrapeGo fetch url company now since news_paths

/--
C5: every candidate in a page's output comes from a block whose resolved
timestamp is at or after `since` (blocks strictly earlier than `since`
yield nothing), and a titled block whose resolved timestamp equals
`since` is retained — the cutoff is a strict less-than exclusion.
-/
theorem extractor_since_cutoff (baseUrl newsUrl company : String)
    (now since : Int) (pg : Page) :
    (∀ c ∈ extractPage baseUrl newsUrl company now since pg,
       ∃ a, processArticle baseUrl newsUrl company now since a = some c
            ∧ since ≤ a.resolvedTime now)
    ∧ (∀ a : Article, a.resolvedTime now < since →
        processArticle baseUrl newsUrl company now since a = none)
    ∧ (∀ a : Article, a.title.isSome = true → a.resolvedTime now = since →
        (processArticle baseUrl newsUrl company now since a).isSome = true) := by
  refine ⟨?_, ?_, ?_⟩
  · intro c hc
    rcases List.mem_filterMap.mp hc with ⟨a, _, ha⟩
    refine ⟨a, ha, ?_⟩
    by_contra hlt
    rcases ht : a.title with _ | t
    · rw [processArticle, ht] at ha
      exact Option.noConfusion ha
    · rw [processArticle, ht] at ha
      simp only [if_neg hlt] at ha
      exact Option.noConfusion ha
  · intro a hlt
    rcases ht : a.title with _ | t
    · rw [processArticle, ht]
    · rw [processArticle, ht]
      simp only [if_neg (not_le.mpr hlt)]
  · intro a htitle heq
    rcases ht : a.title with _ | t
    · rw [ht] at htitle
      exact absurd htitle (by simp)
    · rw [processArticle, ht]
      simp only [heq, if_pos (le_refl since), Option.isSome_some]

/-- Sample page holding one titled block dated exactly at the cutoff. -/
def pageSample : Page :=
  { selectorBlocks := [[{ title := some "T", href := none, dateVal := some 5, text := "body" }]] }

/-- Witness for C5: a block dated exactly at `since` is retained. -/
theorem extractor_since_cutoff_witness :
    (processArticle "https://x.com" "https://x.com/news" "Acme" 9 5
       { title := some "T", href := none, dateVal := some 5, text := "body" }).isSome = true := by
  exact (extractor_since_cutoff "https://x.com" "https://x.com/news" "Acme" 9 5 pageSample).2.2
    { title := some "T", href := none, dateVal := some 5, text := "body" } rfl rfl

/-- Empty page: status 200 but no selector matches any block. -/
def pageEmpty : Page :=
  { selectorBlocks := [] }

/-- Fetch oracle where only the `/news` path answers 200, with an empty page. -/
def fetchNewsEmpty : String → Option Page :=
  fun s => if s = "https://example.com/news" then some pageEmpty else none

/--
Counterexample to C6 as stated: `/news` returns a non-error (200) page,
yet the later `/press` path is still fetched, because the loop only stops
once the accumulated candidate list is non-empty (main.py:169-170), not at
the first non-error page.
-/
theorem scrape_counterexample_c6 :
    (fetchNewsEmpty ("https://example.com" ++ "/news")).isSome = true
    ∧ "/press" ∈ (scrape_website_news fetchNewsEmpty "https://example.com" "Acme" 0 0).2 := by
  constructor
  · decide
  · decide

/--
Characterization used by the amended C6: the fetched paths are exactly the
prefix of `news_paths` up to and including the first path whose page
yields at least one candidate (all paths when none does), and the
resulting candidates are that first yielding path's candidates.
-/
theorem scrapeGo_spec (fetch : String → Option Page) (url company : String)
    (now since : Int) (ps : List String) :
    scrapeGo fetch url company now since ps
      = ((((ps.dropWhile fun p => (pathYield fetch url company now since p).isEmpty).head?).map
            (pathYield fetch url company now since)).getD [],
         (ps.takeWhile fun p => (pathYield fetch url company now since p).isEmpty)
           ++ (ps.dropWhile fun p => (pathYield fetch url company now since p).isEmpty).take 1) := by
  induction ps with
  | nil => rfl
  | cons p ps ih =>
      by_cases h : (pathYield fetch url company now since p).isEmpty = true
      · rw [scrapeGo, if_pos h, ih,
          List.takeWhile_cons_of_pos
            (p := fun q => (pathYield fetch url company now since q).isEmpty) h,
          List.dropWhile_cons_of_pos
            (p := fun q => (pathYield fetch url company now since q).isEmpty) h]
        rfl
      · rw [scrapeGo, if_neg h,
          List.takeWhile_cons_of_neg
            (p := fun q => (pathYield fetch url company now since q).isEmpty) h,
          List.dropWhile_cons_of_neg
            (p := fun q => (pathYield fetch url company now since q).isEmpty) h]
        rfl

/--
Amended C6: the path suffixes are tried in their fixed order, and the
trial stops at the first path whose fetched page yields at least one
candidate — a non-error page that yields no candidates does not stop it.
-/
theorem scrape_stops_at_first_yield (fetch : String → Option Page)
    (url company : String) (now since : Int) :
    (scrape_website_news fetch url company now since).2
      = (news_paths.takeWhile fun p => (pathYield fetch url company now since p).isEmpty)
        ++ (news_paths.dropWhile fun p => (pathYield fetch url company now since p).isEmpty).take 1
    ∧ (scrape_website_news fetch url company now since).1
      = ((((news_paths.dropWhile fun p => (pathYield fetch url company now since p).isEmpty).head?).map
            (pathYield fetch url company now since)).getD []) := by
  rw [scrape_website_news, scrapeGo_spec]
  exact ⟨rfl, rfl⟩

/--
Sort key relation of `generate_report` (main.py:295): Python's
`sort(key=lambda x: (x.company, x.date), reverse=True)` orders the list so
that `a` precedes `b` exactly when the pair `(b.company, b.date)` is
lexicographically at most `(a.company, a.date)`.
-/
def keyGe (a b : Announcement) : Prop :=
  b.company < a.company ∨ (b.company = a.company ∧ b.date ≤ a.date)

instance (a b : Announcement) : Decidable (keyGe a b) := by
  unfold keyGe
  infer_instance

/-- Boolean form of `keyGe`, used as the comparator of the sort. -/
def keyGeB (a b : Announcement) : Bool :=
  decide (keyGe a b)

/-- In-place sort of main.py:295, as the sorted value of the list. -/
def reportSort (l : List Announcement) : List Announcement :=
  l.mergeSort keyGeB

/--
Insertion of one announcement into the company dictionary (main.py:308-311):
append to the company's existing entry, else add a new entry at the end
(Python dicts preserve insertion order).
-/
def insertGroup (gs : List (String × List Announcement)) (a : Announcement) :
    List (String × List Announcement) :=
  match gs with
  | [] => [(a.company, [a])]
  | g :: rest =>
      if g.1 = a.company then (g.1, g.2 ++ [a]) :: rest
      else g :: insertGroup rest a

/-- Company grouping of main.py:306-311. -/
def groupByCompany (l : List Announcement) : List (String × List Announcement) :=
  l.foldl insertGroup []

/-- Groups underlying the rendered sections: grouping applied to the sorted list. -/
def reportGroups (l : List Announcement) : List (String × List Announcement) :=
  groupByCompany (reportSort l)

/-- Rendering of a score with one decimal place, modelling the `:.1f` format of main.py:321. -/
def formatScore (q : ℚ) : String :=
  let n : Int := round (q * 10)
  toString (n / 10) ++ "." ++ toString (n % 10).natAbs

/-- Rendering of one announcement block (main.py:317-326). -/
def renderAnnouncement (a : Announcement) : String :=
  "### " ++ a.title ++ "\n" ++
  "**Date:** " ++ a.date ++ "\n" ++
  "**Category:** " ++ a.category ++ "\n" ++
  "**Importance Score:** " ++ formatScore a.importance_score ++ "/1.0\n" ++
  "**Source:** " ++ a.source ++ "\n\n" ++
  "**Summary:** " ++ a.summary ++ "\n\n" ++
  "**Business Implications:** " ++ a.implications ++ "\n\n" ++
  "**Source Link:** " ++ a.url ++ "\n\n" ++
  "---\n\n"

/-- Rendering of one company section (main.py:314-326). -/
def renderSection (g : String × List Announcement) : String :=
  "\n## " ++ g.1 ++ "\n\n" ++ String.join (g.2.map renderAnnouncement)

/--
Fixed text returned for an empty announcement list (main.py:282-292).
The Python literal is a plain (non-`f`) triple-quoted string, so the
`datetime.now().strftime(...)` fragment between braces is part of the text
verbatim, not an interpolated timestamp; braces and apostrophes appear
here as `\x7b`, `\x7d` and `\x27` escapes.
-/
def emptyReportText : String :=
  "# PEX Competitor Research Report\n            \n## Summary\nNo significant announcements found since the last report.\n\n## Companies Monitored\n- Uponor (including Georg Fischer)\n- Viega\n\nReport generated on: \x7bdatetime.now().strftime(\x27%Y-%m-%d %H:%M:%S\x27)\x7d\n"

/--
Report header of main.py:297-304; `nowStr` stands for the formatted
current instant `datetime.now().strftime('%Y-%m-%d %H:%M:%S')`.
-/
def reportHeader (nowStr : String) (n : Nat) : String :=
  "# PEX Competitor Research Report\n\nReport generated on: " ++ nowStr ++
  "\n\n## Executive Summary\nFound " ++ toString n ++
  " significant announcements from PEX manufacturers.\n\n"

/--
Embedding of `CompetitorAgent.generate_report` (main.py:278-328), returning
the report text together with the final contents of the caller's list
(the Python code sorts that list in place before rendering; on the empty
input it returns before sorting).
-/
def generateReportRun (nowStr : String) (l : List Announcement) :
    String × List Announcement :=
  if l.isEmpty then (emptyReportText, l)
  else
    (reportHeader nowStr (reportSort l).length ++
       String.join ((groupByCompany (reportSort l)).map renderSection),
     reportSort l)

/-- Report text produced by `generate_report`. -/
def generate_report (nowStr : String) (l : List Announcement) : String :=
  (generateReportRun nowStr l).1

set_option maxRecDepth 40000 in
/--
C8 (code bug): on an empty announcement list the fixed report text is
returned and it does contain both monitored company names, but it does
not contain a generation timestamp: the Python literal lacks the `f`
prefix, so the output is identical for every run instant and carries the
verbatim `\x7bdatetime.now().strftime(\x27%Y-%m-%d %H:%M:%S\x27)\x7d`
placeholder instead of a formatted time.
-/
theorem empty_report_lacks_timestamp (nowStr other : String) :
    generate_report nowStr [] = emptyReportText
    ∧ generate_report nowStr [] = generate_report other []
    ∧ "Uponor".data <:+: emptyReportText.data
    ∧ "Viega".data <:+: emptyReportText.data
    ∧ "\x7bdatetime.now().strftime(\x27%Y-%m-%d %H:%M:%S\x27)\x7d".data
        <:+: emptyReportText.data := by
  refine ⟨rfl, rfl, ?_, ?_, ?_⟩ <;> decide

theorem keyGe_trans {a b c : Announcement} (h1 : keyGe a b) (h2 : keyGe b c) : keyGe a c := by
  rcases h1 with h1 | ⟨h1, h1d⟩ <;> rcases h2 with h2 | ⟨h2, h2d⟩
  · exact Or.inl (lt_trans h2 h1)
  · exact Or.inl (h2 ▸ h1)
  · exact Or.inl (lt_of_lt_of_le h2 (le_of_eq h1))
  · exact Or.inr ⟨h2.trans h1, le_trans h2d h1d⟩

theorem keyGe_total (a b : Announcement) : keyGe a b ∨ keyGe b a := by
  rcases lt_trichotomy a.company b.company with h | h | h
  · exact Or.inr (Or.inl h)
  · rcases le_total a.date b.date with hd | hd
    · exact Or.inr (Or.inr ⟨h, hd⟩)
    · exact Or.inl (Or.inr ⟨h.symm, hd⟩)
  · exact Or.inl (Or.inl h)

theorem keyGeB_trans (a b c : Announcement) :
    keyGeB a b → keyGeB b c → keyGeB a c := by
  simp only [keyGeB, decide_eq_true_eq]
  exact keyGe_trans

theorem keyGeB_total (a b : Announcement) : keyGeB a b || keyGeB b a := by
  simp only [keyGeB, Bool.or_eq_true, decide_eq_true_eq]
  exact keyGe_total a b

theorem reportSort_sorted (l : List Announcement) :
    (reportSort l).Pairwise keyGe := by
  have h := List.sorted_mergeSort keyGeB_trans keyGeB_total l
  exact h.imp fun hab => of_decide_eq_true hab

theorem reportSort_perm (l : List Announcement) : (reportSort l).Perm l :=
  List.mergeSort_perm l keyGeB

theorem reportSort_idem (l : List Announcement) :
    reportSort (reportSort l) = reportSort l :=
  List.mergeSort_of_sorted (List.sorted_mergeSort keyGeB_trans keyGeB_total l)

theorem insertGroup_of_not_mem (gs : List (String × List Announcement))
    (a : Announcement) (h : ∀ g ∈ gs, g.1 ≠ a.company) :
    insertGroup gs a = gs ++ [(a.company, [a])] := by
  induction gs with
  | nil => rfl
  | cons g rest ih =>
      rw [insertGroup, if_neg (h g (List.mem_cons_self g rest)),
        ih fun g' hg' => h g' (List.mem_cons_of_mem g hg'), List.cons_append]

theorem insertGroup_concat (pre : List (String × List Announcement))
    (c : String) (as : List Announcement) (a : Announcement)
    (h : ∀ g ∈ pre, g.1 ≠ a.company) (hc : c = a.company) :
    insertGroup (pre ++ [(c, as)]) a = pre ++ [(c, as ++ [a])] := by
  induction pre with
  | nil => simp [insertGroup, hc]
  | cons g rest ih =>
      rw [List.cons_append, insertGroup,
        if_neg (h g (List.mem_cons_self g rest)),
        ih fun g' hg' => h g' (List.mem_cons_of_mem g hg'), List.cons_append]

theorem groupFold_spec :
    ∀ (rest : List Announcement) (acc : List (String × List Announcement)),
      rest.Pairwise keyGe →
      (∀ g ∈ acc, ∀ x ∈ g.2, x.company = g.1) →
      acc.Pairwise (fun g g' => g'.1 < g.1) →
      (∀ g ∈ acc, g.2.Pairwise fun x y => y.date ≤ x.date) →
      (∀ b ∈ rest, ∀ g ∈ acc, b.company ≤ g.1) →
      (∀ b ∈ rest, ∀ g, acc.getLast? = some g → b.company = g.1 →
          ∀ x ∈ g.2, b.date ≤ x.date) →
      (∀ g ∈ rest.foldl insertGroup acc, ∀ x ∈ g.2, x.company = g.1)
      ∧ (rest.foldl insertGroup acc).Pairwise (fun g g' => g'.1 < g.1)
      ∧ (∀ g ∈ rest.foldl insertGroup acc, g.2.Pairwise fun x y => y.date ≤ x.date)
      ∧ ((rest.foldl insertGroup acc).map Prod.snd).flatten
          = (acc.map Prod.snd).flatten ++ rest := by
  intro rest
  induction rest with
  | nil =>
      intro acc _ hown hkeys hdates _ _
      exact ⟨hown, hkeys, hdates, by simp⟩
  | cons a rest ih =>
      intro acc hsorted hown hkeys hdates hub hlast
      have hsorted' : rest.Pairwise keyGe := (List.pairwise_cons.mp hsorted).2
      have hahead : ∀ b ∈ rest, keyGe a b := (List.pairwise_cons.mp hsorted).1
      rw [List.foldl_cons]
      rcases List.eq_nil_or_concat acc with hnil | ⟨pre, last, hacc⟩
      · subst hnil
        have hins : insertGroup [] a = [(a.company, [a])] := rfl
        rw [hins]
        have h1 : ∀ g ∈ [(a.company, [a])], ∀ x ∈ g.2, x.company = g.1 := by
          intro g hg x hx
          rw [List.mem_singleton.mp hg] at hx ⊢
          rw [List.mem_singleton.mp hx]
        have h2 : ([(a.company, [a])]).Pairwise (fun g g' => g'.1 < g.1) :=
          List.pairwise_singleton _ _
        have h3 : ∀ g ∈ [(a.company, [a])], g.2.Pairwise fun x y => y.date ≤ x.date := by
          intro g hg
          rw [List.mem_singleton.mp hg]
          exact List.pairwise_singleton _ _
        have h4 : ∀ b ∈ rest, ∀ g ∈ [(a.company, [a])], b.company ≤ g.1 := by
          intro b hb g hg
          rw [List.mem_singleton.mp hg]
          rcases hahead b hb with h | ⟨h, _⟩
          · exact le_of_lt h
          · exact le_of_eq h
        have h5 : ∀ b ∈ rest, ∀ g, ([(a.company, [a])]).getLast? = some g →
            b.company = g.1 → ∀ x ∈ g.2, b.date ≤ x.date := by
          intro b hb g hg hbc x hx
          have hgeq : (a.company, [a]) = g := by simpa using hg
          subst hgeq
          have hxa : x = a := by simpa using hx
          subst hxa
          rcases hahead b hb with h | ⟨_, hd⟩
          · exact absurd hbc (ne_of_lt h)
          · exact hd
        obtain ⟨g1, g2, g3, g4⟩ := ih [(a.company, [a])] hsorted' h1 h2 h3 h4 h5
        refine ⟨g1, g2, g3, ?_⟩
        rw [g4]
        simp
      · obtain ⟨c, as⟩ := last
        rw [List.concat_eq_append] at hacc
        subst hacc
        obtain ⟨hkPre, -, hkCross⟩ := List.pairwise_append.mp hkeys
        have hpreGt : ∀ g ∈ pre, c < g.1 := fun g hg =>
          hkCross g hg (c, as) (List.mem_singleton.mpr rfl)
        have haC : a.company ≤ c :=
          hub a (List.mem_cons_self _ _) (c, as) (by simp)
        by_cases hc : c = a.company
        · have hpreNe : ∀ g ∈ pre, g.1 ≠ a.company := by
            intro g hg
            have hgt := hpreGt g hg
            rw [hc] at hgt
            exact ne_of_gt hgt
          rw [insertGroup_concat pre c as a hpreNe hc]
          have hlastOwn : ∀ x ∈ as, x.company = c :=
            fun x hx => hown (c, as) (by simp) x hx
          have hlastDates : as.Pairwise fun x y => y.date ≤ x.date :=
            hdates (c, as) (by simp)
          have haDates : ∀ x ∈ as, a.date ≤ x.date :=
            hlast a (List.mem_cons_self _ _) (c, as)
              (by simp [List.getLast?_concat]) hc.symm
          have h1 : ∀ g ∈ pre ++ [(c, as ++ [a])], ∀ x ∈ g.2, x.company = g.1 := by
            intro g hg x hx
            rcases List.mem_append.mp hg with hg | hg
            · exact hown g (List.mem_append_left _ hg) x hx
            · rw [List.mem_singleton.mp hg] at hx ⊢
              rcases List.mem_append.mp hx with hx | hx
              · exact hlastOwn x hx
              · rw [List.mem_singleton.mp hx]
                exact hc.symm
          have h2 : (pre ++ [(c, as ++ [a])]).Pairwise (fun g g' => g'.1 < g.1) := by
            rw [List.pairwise_append]
            refine ⟨hkPre, List.pairwise_singleton _ _, ?_⟩
            intro g hg g' hg'
            rw [List.mem_singleton.mp hg']
            exact hpreGt g hg
          have h3 : ∀ g ∈ pre ++ [(c, as ++ [a])],
              g.2.Pairwise fun x y => y.date ≤ x.date := by
            intro g hg
            rcases List.mem_append.mp hg with hg | hg
            · exact hdates g (List.mem_append_left _ hg)
            · rw [List.mem_singleton.mp hg]
              show (as ++ [a]).Pairwise fun x y => y.date ≤ x.date
              rw [List.pairwise_append]
              refine ⟨hlastDates, List.pairwise_singleton _ _, ?_⟩
              intro x hx y hy
              rw [List.mem_singleton.mp hy]
              exact haDates x hx
          have h4 : ∀ b ∈ rest, ∀ g ∈ pre ++ [(c, as ++ [a])], b.company ≤ g.1 := by
            intro b hb g hg
            rcases List.mem_append.mp hg with hg | hg
            · exact hub b (List.mem_cons_of_mem _ hb) g (List.mem_append_left _ hg)
            · rw [List.mem_singleton.mp hg]
              exact hub b (List.mem_cons_of_mem _ hb) (c, as) (by simp)
          have h5 : ∀ b ∈ rest, ∀ g, (pre ++ [(c, as ++ [a])]).getLast? = some g →
              b.company = g.1 → ∀ x ∈ g.2, b.date ≤ x.date := by
            intro b hb g hg hbc x hx
            rw [List.getLast?_concat] at hg
            injection hg with hg
            subst hg
            rcases List.mem_append.mp hx with hx | hx
            · exact hlast b (List.mem_cons_of_mem _ hb) (c, as)
                (by simp [List.getLast?_concat]) hbc x hx
            · rw [List.mem_singleton.mp hx]
              rcases hahead b hb with h | ⟨_, hd⟩
              · have hne : b.company ≠ c := by
                  rw [hc]
                  exact ne_of_lt h
                exact absurd hbc hne
              · exact hd
          obtain ⟨g1, g2, g3, g4⟩ := ih (pre ++ [(c, as ++ [a])]) hsorted' h1 h2 h3 h4 h5
          refine ⟨g1, g2, g3, ?_⟩
          rw [g4]
          simp [List.append_assoc]
        · have haLt : a.company < c := lt_of_le_of_ne haC fun h => hc h.symm
          have hallNe : ∀ g ∈ pre ++ [(c, as)], g.1 ≠ a.company := by
            intro g hg
            rcases List.mem_append.mp hg with hg | hg
            · exact ne_of_gt (lt_trans haLt (hpreGt g hg))
            · rw [List.mem_singleton.mp hg]
              exact hc
          rw [insertGroup_of_not_mem _ a hallNe]
          have h1 : ∀ g ∈ (pre ++ [(c, as)]) ++ [(a.company, [a])],
              ∀ x ∈ g.2, x.company = g.1 := by
            intro g hg x hx
            rcases List.mem_append.mp hg with hg | hg
            · exact hown g hg x hx
            · rw [List.mem_singleton.mp hg] at hx ⊢
              rw [List.mem_singleton.mp hx]
          have h2 : ((pre ++ [(c, as)]) ++ [(a.company, [a])]).Pairwise
              (fun g g' => g'.1 < g.1) := by
            rw [List.pairwise_append]
            refine ⟨hkeys, List.pairwise_singleton _ _, ?_⟩
            intro g hg g' hg'
            rw [List.mem_singleton.mp hg']
            rcases List.mem_append.mp hg with hg | hg
            · exact lt_trans haLt (hpreGt g hg)
            · rw [List.mem_singleton.mp hg]
              exact haLt
          have h3 : ∀ g ∈ (pre ++ [(c, as)]) ++ [(a.company, [a])],
              g.2.Pairwise fun x y => y.date ≤ x.date := by
            intro g hg
            rcases List.mem_append.mp hg with hg | hg
            · exact hdates g hg
            · rw [List.mem_singleton.mp hg]
              exact List.pairwise_singleton _ _
          have h4 : ∀ b ∈ rest, ∀ g ∈ (pre ++ [(c, as)]) ++ [(a.company, [a])],
              b.company ≤ g.1 := by
            intro b hb g hg
            rcases List.mem_append.mp hg with hg | hg
            · exact hub b (List.mem_cons_of_mem _ hb) g hg
            · rw [List.mem_singleton.mp hg]
              rcases hahead b hb with h | ⟨h, _⟩
              · exact le_of_lt h
              · exact le_of_eq h
          have h5 : ∀ b ∈ rest, ∀ g,
              ((pre ++ [(c, as)]) ++ [(a.company, [a])]).getLast? = some g →
              b.company = g.1 → ∀ x ∈ g.2, b.date ≤ x.date := by
            intro b hb g hg hbc x hx
            rw [List.getLast?_concat] at hg
            injection hg with hg
            subst hg
            rw [List.mem_singleton.mp hx]
            rcases hahead b hb with h | ⟨_, hd⟩
            · exact absurd hbc (ne_of_lt h)
            · exact hd
          obtain ⟨g1, g2, g3, g4⟩ :=
            ih ((pre ++ [(c, as)]) ++ [(a.company, [a])]) hsorted' h1 h2 h3 h4 h5
          refine ⟨g1, g2, g3, ?_⟩
          rw [g4]
          simp [List.append_assoc]

theorem groupByCompany_of_sorted (l : List Announcement) (hs : l.Pairwise keyGe) :
    (∀ g ∈ groupByCompany l, ∀ x ∈ g.2, x.company = g.1)
    ∧ (groupByCompany l).Pairwise (fun g g' => g'.1 < g.1)
    ∧ (∀ g ∈ groupByCompany l, g.2.Pairwise fun x y => y.date ≤ x.date)
    ∧ ((groupByCompany l).map Prod.snd).flatten = l := by
  have h := groupFold_spec l [] hs (by simp) (by simp) (by simp) (by simp) (by simp)
  simpa [groupByCompany] using h

/--
C7: for a non-empty announcement list, the report's grouping assigns every
announcement to exactly its own company's section (no cross-contamination:
the sections' contents are a permutation of the input), the sections
appear in strictly descending company-name order as produced by the
reverse sort on the (company, date) key, and inside each section the
announcements appear in descending date order (most recent first).
-/
theorem report_groups_partition (l : List Announcement) (h : l ≠ []) :
    (∀ g ∈ reportGroups l, ∀ x ∈ g.2, x.company = g.1)
    ∧ (reportGroups l).Pairwise (fun g g' => g'.1 < g.1)
    ∧ (∀ g ∈ reportGroups l, g.2.Pairwise fun x y => y.date ≤ x.date)
    ∧ (((reportGroups l).map Prod.snd).flatten).Perm l := by
  obtain ⟨h1, h2, h3, h4⟩ :=
    groupByCompany_of_sorted (reportSort l) (reportSort_sorted l)
  refine ⟨h1, h2, h3, ?_⟩
  rw [reportGroups, h4]
  exact reportSort_perm l

/-- Sample Uponor announcement for the report witnesses. -/
def annUp : Announcement :=
  { company := "Uponor", title := "A", date := "2024-01-02", url := "u1",
    content := "c1", source := "website", importance_score := (8 : ℚ)/10,
    category := "Product Launch", summary := "s1", implications := "i1" }

/-- Sample Viega announcement for the report witnesses. -/
def annVi : Announcement :=
  { company := "Viega", title := "B", date := "2024-01-01", url := "u2",
    content := "c2", source := "website", importance_score := (6 : ℚ)/10,
    category := "Partnership", summary := "s2", implications := "i2" }

/-- Witness for C7 on a two-company, two-announcement list. -/
theorem report_groups_partition_witness :
    (∀ g ∈ reportGroups [annUp, annVi], ∀ x ∈ g.2, x.company = g.1)
    ∧ (reportGroups [annUp, annVi]).Pairwise (fun g g' => g'.1 < g.1)
    ∧ (∀ g ∈ reportGroups [annUp, annVi], g.2.Pairwise fun x y => y.date ≤ x.date)
    ∧ (((reportGroups [annUp, annVi]).map Prod.snd).flatten).Perm [annUp, annVi] :=
  report_groups_partition [annUp, annVi] (List.cons_ne_nil _ _)

/--
C9: building the report a second time over the same announcement set — the
caller's list as the first call left it — produces byte-identical text,
with the generation instant held fixed as an explicit input (the build is
a pure function of instant and announcements).
-/
theorem report_build_idempotent (nowStr : String) (l : List Announcement) :
    generate_report nowStr (generateReportRun nowStr l).2
      = generate_report nowStr l := by
  by_cases h : l.isEmpty = true
  · have hl : l = [] := List.isEmpty_iff.mp h
    subst hl
    rfl
  · have h2 : (generateReportRun nowStr l).2 = reportSort l := by
      rw [generateReportRun, if_neg h]
    have hne : ¬((reportSort l).isEmpty = true) := by
      rw [List.isEmpty_iff_length_eq_zero, reportSort, List.length_mergeSort]
      rw [List.isEmpty_iff_length_eq_zero] at h
      exact h
    rw [h2, generate_report, generate_report, generateReportRun, generateReportRun,
      if_neg hne, if_neg h, reportSort_idem]

/--
Counterexample to C10 as stated: on the non-empty singleton list the
in-place sort of `generate_report` leaves the caller's list with exactly
its original contents, so "the input list is not left unchanged by the
call" fails for this non-empty input.
-/
theorem report_mutation_counterexample :
    ([annUp] : List Announcement) ≠ []
    ∧ (generateReportRun "2025-01-01 00:00:00" [annUp]).2 = [annUp] := by
  refine ⟨List.cons_ne_nil _ _, ?_⟩
  rw [generateReportRun, if_neg (by simp)]
  show reportSort [annUp] = [annUp]
  rw [reportSort, List.mergeSort_singleton]

/--
Amended C10: `generate_report` sorts its caller's list in place — after
the call the list holds the same elements (a permutation of its former
contents) in descending (company, date) key order; the list coincides
with its original contents exactly when it was already in that order
(in particular on a singleton or an already-sorted list).
-/
theorem report_mutates_to_sorted (nowStr : String) (l : List Announcement) :
    ((generateReportRun nowStr l).2).Perm l
    ∧ ((generateReportRun nowStr l).2).Pairwise keyGe := by
  by_cases h : l.isEmpty = true
  · have hl : l = [] := List.isEmpty_iff.mp h
    subst hl
    exact ⟨List.Perm.refl _, List.Pairwise.nil⟩
  · have h2 : (generateReportRun nowStr l).2 = reportSort l := by
      rw [generateReportRun, if_neg h]
    rw [h2]
    exact ⟨reportSort_perm l, reportSort_sorted l⟩

/-- Events of one run of the coordinator, in the order they occur. -/
inductive RunEvent where
  | windowRead
  | collected
  | reported
  | saved
  | advanced
deriving DecidableEq

/--
Persistent artifacts of the agent: the timestamp-file state (as in
`get_last_run_timestamp`) and the saved report blobs.
-/
structure AgentFS where
  timestampFile : Option (Option Int)
  reports : List String

/-- Result of one run: final artifacts, success flag, event trace. -/
structure RunOutcome where
  fs : AgentFS
  ok : Bool
  trace : List RunEvent

/--
Embedding of `CompetitorAgent.run` (main.py:342-368).  `collectOutcome`
is the result of `collect_announcements`: `some anns` on success, `none`
when an uncaught exception escapes collection (network and classifier
errors are caught inside, but any unclassified error propagates); the
`except` block re-raises, so the run aborts before the later stages.  On
success the run renders the report, saves it, and finally overwrites the
timestamp file with the current instant (`update_timestamp`,
main.py:84-90).  The timestamp and report stores are modelled as
reliable, per the spec's scoping of persistence as an external
collaborator.
-/
def runAgent (now : Int) (nowStr : String)
    (collectOutcome : Option (List Announcement)) (fs : AgentFS) : RunOutcome :=
  let _since := get_last_run_timestamp now fs.timestampFile
  match collectOutcome with
  | none => { fs := fs, ok := false, trace := [RunEvent.windowRead] }
  | some anns =>
      let report := generate_report nowStr anns
      let fs1 : AgentFS := { fs with reports := fs.reports ++ [report] }
      let fs2 : AgentFS := { fs1 with timestampFile := some (some now) }
      { fs := fs2, ok := true,
        trace := [RunEvent.windowRead, RunEvent.collected, RunEvent.reported,
                  RunEvent.saved, RunEvent.advanced] }

/--
C2: on a successful run the window marker is overwritten with the current
instant, advanced exactly once, and only as the last step — after
collection, report generation and report persistence have all completed;
on a run aborted by an uncaught exception before that point the stored
marker is left unchanged and no advance event occurs.
-/
theorem run_advances_window_iff_success (now : Int) (nowStr : String)
    (co : Option (List Announcement)) (fs : AgentFS) :
    ((runAgent now nowStr co fs).ok = true →
      (runAgent now nowStr co fs).fs.timestampFile = some (some now)
      ∧ (runAgent now nowStr co fs).trace =
          [RunEvent.windowRead, RunEvent.collected, RunEvent.reported,
           RunEvent.saved, RunEvent.advanced]
      ∧ (runAgent now nowStr co fs).trace.count RunEvent.advanced = 1)
    ∧ ((runAgent now nowStr co fs).ok = false →
      (runAgent now nowStr co fs).fs.timestampFile = fs.timestampFile
      ∧ RunEvent.advanced ∉ (runAgent now nowStr co fs).trace) := by
  cases co with
  | none =>
      refine ⟨fun hok => absurd hok ?_, fun _ => ⟨rfl, ?_⟩⟩
      · exact Bool.false_ne_true
      · show RunEvent.advanced ∉ [RunEvent.windowRead]
        simp
  | some anns =>
      refine ⟨fun _ => ⟨rfl, rfl, ?_⟩, fun hok => absurd hok ?_⟩
      · show List.count RunEvent.advanced
            [RunEvent.windowRead, RunEvent.collected, RunEvent.reported,
             RunEvent.saved, RunEvent.advanced] = 1
        decide
      · exact fun hh => Bool.noConfusion hh

/-- Initial artifacts for the C2 witness. -/
def fsSample : AgentFS :=
  { timestampFile := some (some 1000), reports := [] }

/-- Witness for C2: a successful run stamps the current instant and a failed run leaves the marker at its old value. -/
theorem run_advances_window_iff_success_witness :
    ((runAgent 2000 "t" (some []) fsSample).fs.timestampFile = some (some 2000)
      ∧ (runAgent 2000 "t" (some []) fsSample).trace =
          [RunEvent.windowRead, RunEvent.collected, RunEvent.reported,
           RunEvent.saved, RunEvent.advanced]
      ∧ (runAgent 2000 "t" (some []) fsSample).trace.count RunEvent.advanced = 1)
    ∧ ((runAgent 2000 "t" none fsSample).fs.timestampFile = fsSample.timestampFile
      ∧ RunEvent.advanced ∉ (runAgent 2000 "t" none fsSample).trace) :=
  ⟨(run_advances_window_iff_success 2000 "t" (some []) fsSample).1 rfl,
   (run_advances_window_iff_success 2000 "t" none fsSample).2 rfl⟩

end CompetitorNews
